import Mathlib

/-!
Verification of the Corebrain query-cache core (src/corebrain/core/query.py):
a shallow embedding of the QueryCache two-tier cache, the QueryTemplate
matcher and generator, and the QueryAnalyzer pattern statistics, together
with theorems settling the frozen claims about them.

Modelling conventions:
* Python time.time() timestamps and TTLs are integers (Int), passed
  explicitly to each operation instead of being read from a clock.
* Python dicts and the sqlite tables are association lists keyed by
  strings; aset and aerase model item assignment and deletion, and
  List.lookup models reading.  ISO-8601 timestamp strings stored by the
  source compare lexicographically exactly as the underlying instants, so
  they are modelled directly as integer instants.
* The MD5 hexdigest in QueryCache._get_hash is modelled as the identity on
  the composed pre-image string: MD5 is deterministic, so equal pre-images
  give equal digests, and distinct pre-images are modelled as distinct
  keys (MD5 collisions are out of scope).
* Python floats (execution times, costs) are modelled as exact rationals.
* pickle round-trips payloads faithfully; payloads are a type parameter.
* Characters are treated at ASCII granularity (lowercasing, word chars).
-/

/-- Python regex class \s, ASCII range: space, tab, newline, carriage
return, vertical tab, form feed. -/
def isSpaceChar (c : Char) : Bool :=
  c = ' ' || c = '\t' || c = '\n' || c = '\r' || c = '\x0b' || c = '\x0c'

/-- re.sub(r"\s+", " ", s): every maximal whitespace run becomes one
single space. -/
def collapseWs : List Char → List Char
  | [] => []
  | c :: cs =>
    if isSpaceChar c then
      (match cs with
       | [] => [' ']
       | d :: _ => if isSpaceChar d then collapseWs cs else ' ' :: collapseWs cs)
    else c :: collapseWs cs

/-- str.strip(): drop leading and trailing whitespace. -/
def stripWs (cs : List Char) : List Char :=
  ((cs.dropWhile isSpaceChar).reverse.dropWhile isSpaceChar).reverse

/-- The normalization in QueryCache._get_hash: lowercase, strip, collapse
internal whitespace runs to single spaces. -/
def normalizeQuery (q : String) : String :=
  String.mk (collapseWs (stripWs (q.toList.map Char.toLower)))

/-- QueryCache._get_hash.  The composed string
normalized_query | config_id [ | collection_name ] is built exactly as in
the source; the guard `if collection_name:` is Python truthiness, which is
false both for None and for the empty string.  The MD5 hexdigest is
modelled as the pre-image itself (see file header). -/
def getHash (query config_id : String) (collection_name : Option String) : String :=
  let base := normalizeQuery query ++ "|" ++ config_id
  match collection_name with
  | some cn => if cn = "" then base else base ++ "|" ++ cn
  | none => base

/-- Association-list model of dict item assignment d[k] = v (and of an
sqlite upsert keyed by a primary key). -/
def aset {β : Type} (k : String) (v : β) (l : List (String × β)) : List (String × β) :=
  (k, v) :: l.filter (fun p => p.1 != k)

/-- Association-list model of dict item deletion del d[k] (and of a keyed
sqlite DELETE). -/
def aerase {β : Type} (k : String) (l : List (String × β)) : List (String × β) :=
  l.filter (fun p => p.1 != k)

theorem lookup_aset_self {β : Type} (k : String) (v : β) (l : List (String × β)) :
    List.lookup k (aset k v l) = some v := by
  unfold aset
  exact List.lookup_cons_self

theorem lookup_filter_ne {β : Type} (k k2 : String) (l : List (String × β))
    (h : k ≠ k2) : List.lookup k (l.filter (fun p => p.1 != k2)) = List.lookup k l := by
  induction l with
  | nil => rfl
  | cons p l ih =>
    rw [List.filter_cons]
    by_cases hp : p.1 = k2
    · have h1 : (p.1 != k2) = false := by simpa using hp
      rw [h1]
      simp only [Bool.false_eq_true, if_false]
      rw [ih, List.lookup_cons]
      have hb : (k == p.1) = false := by
        simp only [beq_eq_false_iff_ne, ne_eq]
        rw [hp]
        exact h
      simp only [hb]
    · have h1 : (p.1 != k2) = true := by simpa using hp
      rw [h1]
      simp only [if_true]
      rw [List.lookup_cons, List.lookup_cons]
      cases hkb : k == p.1 <;> simp [ih]

theorem lookup_aset_ne {β : Type} (k k2 : String) (v : β) (l : List (String × β))
    (h : k ≠ k2) : List.lookup k (aset k2 v l) = List.lookup k l := by
  unfold aset
  rw [List.lookup_cons]
  have hb : (k == k2) = false := by simpa using h
  simp only [hb]
  exact lookup_filter_ne k k2 l h

theorem lookup_aerase_self {β : Type} (k : String) (l : List (String × β)) :
    List.lookup k (aerase k l) = none := by
  rw [List.lookup_eq_none_iff]
  intro p hp
  unfold aerase at hp
  rw [List.mem_filter] at hp
  have hne : p.1 ≠ k := by simpa using hp.2
  simpa using hne.symm

theorem lookup_aerase_ne {β : Type} (k k2 : String) (l : List (String × β))
    (h : k ≠ k2) : List.lookup k (aerase k2 l) = List.lookup k l :=
  lookup_filter_ne k k2 l h

/-- One row of the cache_metadata sqlite table. -/
structure MetaRow where
  query : String
  config_id : String
  created_at : Int
  last_accessed : Int
  hit_count : Int
deriving DecidableEq

/-- The state of a QueryCache instance together with its on-disk artifacts:
the two in-memory dicts and the LRU list, the payload files (hash ↦
payload and file mtime), and the cache_metadata index table. -/
structure CacheState (α : Type) where
  memory_cache : List (String × α)
  memory_timestamps : List (String × Int)
  memory_limit : Nat
  memory_lru : List String
  ttl : Int
  disk : List (String × α × Int)
  metadata : List (String × MetaRow)

/-- A freshly constructed cache: empty tiers, given ttl and memory limit. -/
def initCache (α : Type) (ttl : Int) (memory_limit : Nat) : CacheState α :=
  { memory_cache := [], memory_timestamps := [], memory_limit := memory_limit,
    memory_lru := [], ttl := ttl, disk := [], metadata := [] }

/-- QueryCache._update_metadata: bump hit_count and last_accessed of an
existing row, or insert a fresh row with hit_count 1. -/
def updateMetadata (h q cfg : String) (now : Int) (md : List (String × MetaRow)) :
    List (String × MetaRow) :=
  match List.lookup h md with
  | some row => aset h { row with last_accessed := now, hit_count := row.hit_count + 1 } md
  | none => aset h { query := q, config_id := cfg, created_at := now,
                     last_accessed := now, hit_count := 1 } md

/-- The three memory-tier attributes of a QueryCache, as one record: the
memory_cache and memory_timestamps dicts and the memory_lru list. -/
structure MemTier (α : Type) where
  mc : List (String × α)
  mts : List (String × Int)
  lru : List String

/-- QueryCache._update_memory_lru on the memory-tier attributes: move the
hash to the most-recently-used end; if the list then exceeds
memory_limit, pop the least-recently-used hash and delete its memory
entries. -/
def lruUpdate {α : Type} (limit : Nat) (h : String) (m : MemTier α) : MemTier α :=
  let lru0 := if h ∈ m.lru then m.lru.erase h else m.lru
  let lru1 := lru0 ++ [h]
  if lru1.length > limit then
    match lru1 with
    | [] => { m with lru := [] }
    | oldest :: restl =>
      if (List.lookup oldest m.mc).isSome then
        { mc := aerase oldest m.mc, mts := aerase oldest m.mts, lru := restl }
      else { m with lru := restl }
  else { m with lru := lru1 }

/-- The memory tier of a cache state. -/
def memTier {α : Type} (s : CacheState α) : MemTier α :=
  { mc := s.memory_cache, mts := s.memory_timestamps, lru := s.memory_lru }

/-- QueryCache._update_memory_lru as a state transformer (it reads and
writes only the three memory-tier attributes). -/
def updateMemoryLru {α : Type} (h : String) (s : CacheState α) : CacheState α :=
  let m := lruUpdate s.memory_limit h (memTier s)
  { s with memory_cache := m.mc, memory_timestamps := m.mts, memory_lru := m.lru }

/-- The memory-tier half of QueryCache.set: store value and timestamp,
then run the LRU bookkeeping. -/
def memInsert {α : Type} (limit : Nat) (h : String) (v : α) (now : Int)
    (m : MemTier α) : MemTier α :=
  lruUpdate limit h { mc := aset h v m.mc, mts := aset h now m.mts, lru := m.lru }

/-- QueryCache.set: write the memory tier (with LRU bookkeeping), then the
payload file (mtime = now), then the metadata row.  The source's disk
write error path is not taken in the model (writes succeed). -/
def cset {α : Type} (s : CacheState α) (now : Int) (query config_id : String)
    (result : α) (collection_name : Option String) : CacheState α :=
  let h := getHash query config_id collection_name
  let m := memInsert s.memory_limit h result now (memTier s)
  { s with memory_cache := m.mc, memory_timestamps := m.mts, memory_lru := m.lru,
           disk := aset h (result, now) s.disk,
           metadata := updateMetadata h query config_id now s.metadata }

/-- The disk half of QueryCache.get: on a fresh file, load, promote into
memory and update metadata; on an expired file, delete the payload file
(and only the file — the metadata row is left untouched) and miss. -/
def diskGet {α : Type} (s : CacheState α) (now : Int) (h query config_id : String) :
    Option α × CacheState α :=
  match List.lookup h s.disk with
  | some (v, mtime) =>
    if now - mtime < s.ttl then
      let m := memInsert s.memory_limit h v now (memTier s)
      (some v, { s with memory_cache := m.mc, memory_timestamps := m.mts,
                        memory_lru := m.lru,
                        metadata := updateMetadata h query config_id now s.metadata })
    else
      (none, { s with disk := aerase h s.disk })
  | none => (none, s)

/-- QueryCache.get: memory tier first (hit refreshes LRU and metadata, a
stale entry is dropped from memory), then the disk tier.  The lookup of
memory_timestamps raises KeyError in the source when the two memory dicts
are out of sync; that case is unreachable for states produced by the API
and is modelled as a plain miss leaving the state unchanged. -/
def cget {α : Type} (s : CacheState α) (now : Int) (query config_id : String)
    (collection_name : Option String) : Option α × CacheState α :=
  let h := getHash query config_id collection_name
  match List.lookup h s.memory_cache with
  | some v =>
    match List.lookup h s.memory_timestamps with
    | some ts =>
      if now - ts < s.ttl then
        let s1 := updateMemoryLru h s
        (some v, { s1 with metadata := updateMetadata h query config_id now s1.metadata })
      else
        diskGet
          { s with memory_cache := aerase h s.memory_cache,
                   memory_timestamps := aerase h s.memory_timestamps,
                   memory_lru := if h ∈ s.memory_lru then s.memory_lru.erase h
                                 else s.memory_lru }
          now h query config_id
    | none => (none, s)
  | none => diskGet s now h query config_id

/-- QueryCache.clear.  The guard `if older_than:` is Python truthiness, so
clear(0) (and clear(None)) wipes both tiers completely.  With a truthy
cutoff, memory entries are removed by the age of their stored write
timestamp, while disk entries are selected through the metadata table by
last_accessed; the payload file and the index row of each selected hash
are both removed. -/
def cclear {α : Type} (s : CacheState α) (now : Int) (older_than : Option Int) :
    CacheState α :=
  match older_than with
  | some d =>
    if d = 0 then
      { s with memory_cache := [], memory_timestamps := [], memory_lru := [],
               disk := [], metadata := [] }
    else
      let keys := (s.memory_timestamps.filter (fun p => now - p.2 > d)).map (fun p => p.1)
      let s1 := { s with
        memory_cache := keys.foldl (fun m k => aerase k m) s.memory_cache,
        memory_timestamps := keys.foldl (fun m k => aerase k m) s.memory_timestamps,
        memory_lru := keys.foldl (fun l k => if k ∈ l then l.erase k else l) s.memory_lru }
      let cutoff := now - d
      let old_hashes := (s1.metadata.filter (fun p => p.2.last_accessed < cutoff)).map
        (fun p => p.1)
      { s1 with disk := old_hashes.foldl (fun dk k => aerase k dk) s1.disk,
                metadata := old_hashes.foldl (fun m k => aerase k m) s1.metadata }
  | none =>
    { s with memory_cache := [], memory_timestamps := [], memory_lru := [],
             disk := [], metadata := [] }

/-- The kind of a typed placeholder in a QueryTemplate pattern. -/
inductive GKind where
  | table
  | field
  | value
  | number
deriving DecidableEq

/-- The character class each placeholder kind captures, per
QueryTemplate._compile_pattern: {table} and {field} become (\w+), {value}
becomes one-or-more of anything but comma, period and whitespace, {number}
becomes (\d+).  ASCII granularity. -/
def classFn : GKind → Char → Bool
  | .table, c => c.isAlphanum || c = '_'
  | .field, c => c.isAlphanum || c = '_'
  | .value, c => !(c = ',' || c = '.' || isSpaceChar c)
  | .number, c => c.isDigit

/-- A token of the compiled pattern: a literal character or a capturing
group of a placeholder kind. -/
inductive Tok where
  | lit (c : Char)
  | grp (k : GKind)
deriving DecidableEq

/-- QueryTemplate._compile_pattern, tokenized.  The source textually
replaces the four markers (which never overlap, and whose replacements
introduce no new markers), so a single left-to-right scan recognizing the
markers produces the same decomposition; every remaining character is a
regex literal.  Faithful for patterns whose literal characters are not
regex metacharacters (all shipped templates). -/
def tokenizePattern : List Char → List Tok
  | '{' :: 't' :: 'a' :: 'b' :: 'l' :: 'e' :: '}' :: rest =>
      .grp .table :: tokenizePattern rest
  | '{' :: 'f' :: 'i' :: 'e' :: 'l' :: 'd' :: '}' :: rest =>
      .grp .field :: tokenizePattern rest
  | '{' :: 'v' :: 'a' :: 'l' :: 'u' :: 'e' :: '}' :: rest =>
      .grp .value :: tokenizePattern rest
  | '{' :: 'n' :: 'u' :: 'm' :: 'b' :: 'e' :: 'r' :: '}' :: rest =>
      .grp .number :: tokenizePattern rest
  | c :: rest => .lit c :: tokenizePattern rest
  | [] => []

/-- The candidate (group, remainder) splits a greedy backtracking matcher
tries for one capturing group, longest first: g is the maximal class run,
rest the remainder of the subject. -/
def splitsDesc (g rest : List Char) : List (List Char × List Char) :=
  (List.range g.length).map (fun i => (g.take (g.length - i), g.drop (g.length - i) ++ rest))

/-- The compiled regex of QueryTemplate.matches, run on a subject:
re.match with a leading ^ and a trailing $ under re.IGNORECASE.  Literals
compare case-insensitively; each group captures greedily with
backtracking (longest candidate first, as the Python engine does).  The
trailing $ of a Python pattern accepts the very end of the subject or the
position just before one final newline, hence the ['\n'] alternative in
the base case. -/
def matchToks : List Tok → List Char → Option (List (List Char))
  | [], cs => if cs = [] ∨ cs = ['\n'] then some [] else none
  | .lit _ :: _, [] => none
  | .lit c :: ts, x :: cs => if c.toLower = x.toLower then matchToks ts cs else none
  | .grp k :: ts, cs =>
    (splitsDesc (cs.takeWhile (classFn k)) (cs.dropWhile (classFn k))).findSome?
      (fun pr => (matchToks ts pr.2).map (fun ps => pr.1 :: ps))

/-- QueryTemplate.matches: (True, captured parameters) on a full
anchored match, (False, []) otherwise. -/
def templateMatches (pattern query : String) : Bool × List String :=
  match matchToks (tokenizePattern pattern.toList) query.toList with
  | some ps => (true, ps.map (fun g => String.mk g))
  | none => (false, [])

/-- The declarative specification of one anchored match: the subject
splits into segments, one per token; a literal consumes one
case-insensitively equal character, a group consumes a nonempty run of
its class, and the captured groups are listed in the order the group
tokens occur. -/
inductive Decomp : List Tok → List Char → List (List Char) → Prop
  | nil : Decomp [] [] []
  | lit {c x : Char} {ts : List Tok} {cs : List Char} {ps : List (List Char)} :
      c.toLower = x.toLower → Decomp ts cs ps → Decomp (.lit c :: ts) (x :: cs) ps
  | grp {k : GKind} {g cs : List Char} {ts : List Tok} {ps : List (List Char)} :
      g ≠ [] → (∀ a ∈ g, classFn k a = true) → Decomp ts cs ps →
      Decomp (.grp k :: ts) (g ++ cs) (g :: ps)

/-- Fueled model of Python str.replace(pat, repl): leftmost,
non-overlapping, the replacement is not rescanned.  Each step consumes at
least one subject character when pat is nonempty, so fuel = length of the
subject makes the fueled recursion total and exact. -/
def replaceAllF (fuel : Nat) (pat repl : List Char) : List Char → List Char
  | [] => []
  | c :: cs =>
    match fuel with
    | 0 => c :: cs
    | fuel + 1 =>
      if pat ≠ [] ∧ pat.isPrefixOf (c :: cs) then
        repl ++ replaceAllF fuel pat repl ((c :: cs).drop pat.length)
      else
        c :: replaceAllF fuel pat repl cs

/-- Python str.replace(pat, repl) on character lists (pat nonempty in all
uses: the placeholders are of the shape dollar-digits). -/
def replaceAll (s pat repl : List Char) : List Char :=
  replaceAllF s.length pat repl s

/-- The positional placeholder string of parameter i (0-based), built as
the f-string makes it: a dollar sign followed by the decimal of i+1. -/
def placeholder (i : Nat) : List Char := '$' :: (Nat.repr (i + 1)).toList

/-- The substitution pass of QueryTemplate.generate_query: enumerate the
captured parameters and replace every occurrence of each positional
placeholder by the parameter. -/
def substParams (tmpl : List Char) (params : List String) : List Char :=
  (params.enum).foldl (fun acc ip => replaceAll acc (placeholder ip.1) ip.2.toList) tmpl

/-- QueryTemplate.generate_query.  A custom generator (modelled as a
function of the captured parameters; the schema argument of the source
carries no information used by the declarative path) wins when present;
otherwise the declarative template is substituted positionally, and any
remaining dollar sign makes generation fail with None.  The source wraps
the produced SQL in a result dict; the model returns the SQL string.  The
surrounding try/except is the totality of this function: no exception
escapes to the caller. -/
def generateQuery (generator_func : Option (List String → Option String))
    (sql_template : Option String) (params : List String) : Option String :=
  match generator_func with
  | some g => g params
  | none =>
    match sql_template with
    | none => none
    | some tmpl =>
      let sub := substParams tmpl.toList params
      if '$' ∈ sub then none else some (String.mk sub)

/-- One row of the query_patterns sqlite table. -/
structure PatternStat where
  count : Nat
  avg_execution_time : ℚ
  avg_cost : ℚ
  last_updated : Int
deriving DecidableEq

/-- The upsert QueryAnalyzer.log_query performs on a detected pattern's
statistics row: incremental-average update of both averages and a count
increment, or a fresh row with count 1. -/
def updatePatternStat (stat : Option PatternStat) (execution_time cost : ℚ)
    (now : Int) : PatternStat :=
  match stat with
  | some st =>
    { count := st.count + 1,
      avg_execution_time :=
        (st.avg_execution_time * (st.count : ℚ) + execution_time) / ((st.count : ℚ) + 1),
      avg_cost := (st.avg_cost * (st.count : ℚ) + cost) / ((st.count : ℚ) + 1),
      last_updated := now }
  | none =>
    { count := 1, avg_execution_time := execution_time, avg_cost := cost,
      last_updated := now }

/-- One row of the query_log sqlite table. -/
structure LogRecord where
  query : String
  config_id : String
  collection_name : Option String
  timestamp : Int
  execution_time : ℚ
  cost : ℚ
  result_count : Int
  pattern : Option String
deriving DecidableEq

/-- QueryAnalyzer.log_query: append the log record (with the detected
pattern), and when a pattern was detected, upsert its statistics row.
The helper QueryAnalyzer._detect_pattern is passed in as the detect
parameter. -/
def logQuery (detect : String → Option String)
    (qlog : List LogRecord) (pats : List (String × PatternStat))
    (query config_id : String) (collection_name : Option String) (now : Int)
    (execution_time cost : ℚ) (result_count : Int) :
    List LogRecord × List (String × PatternStat) :=
  let pattern := detect query
  let entry1 : LogRecord :=
    { query := query, config_id := config_id, collection_name := collection_name,
      timestamp := now, execution_time := execution_time, cost := cost,
      result_count := result_count, pattern := pattern }
  let qlog2 := qlog ++ [entry1]
  match pattern with
  | some p =>
      (qlog2, aset p (updatePatternStat (List.lookup p pats) execution_time cost now) pats)
  | none => (qlog2, pats)

/-- One row of the query_patterns table as read by get_common_patterns. -/
structure PatternRow where
  pattern : String
  count : Nat
  avg_execution_time : ℚ
  avg_cost : ℚ
deriving DecidableEq

/-- Python round(x, 2) modelled over the exact rationals (the source
applies it to floats; the model rounds the exact value to a multiple of
1/100). -/
def round2 (q : ℚ) : ℚ := ((round (q * 100) : ℤ) : ℚ) / 100

/-- Descending insertion by count: the model of ORDER BY count DESC (the
order among equal counts is unspecified in sqlite; the model fixes one). -/
def insertByCount (r : PatternRow) : List PatternRow → List PatternRow
  | [] => [r]
  | x :: xs => if r.count ≥ x.count then r :: x :: xs else x :: insertByCount r xs

/-- Sort the pattern store by count, descending. -/
def sortByCountDesc (l : List PatternRow) : List PatternRow :=
  l.foldr insertByCount []

/-- One entry of the list QueryAnalyzer.get_common_patterns returns. -/
structure CommonPattern where
  pattern : String
  count : Nat
  avg_execution_time : ℚ
  avg_cost : ℚ
  estimated_monthly_cost : ℚ
deriving DecidableEq

/-- QueryAnalyzer.get_common_patterns: the limit highest-count rows, each
decorated with the monthly-cost estimate round(avg_cost * count * 30/7, 2). -/
def getCommonPatterns (store : List PatternRow) (limit : Nat) : List CommonPattern :=
  ((sortByCountDesc store).take limit).map (fun r =>
    { pattern := r.pattern, count := r.count,
      avg_execution_time := r.avg_execution_time, avg_cost := r.avg_cost,
      estimated_monthly_cost := round2 (r.avg_cost * (r.count : ℚ) * 30 / 7) })

/-- An optimization suggestion record: the type tag and the numeric
evidence fields of the dicts the source builds (the human-readable
message strings are presentation and are not modelled). -/
inductive Suggestion where
  | volume_plan (query_count : Int) (total_cost : ℚ)
  | cache_adjustment (current_rate : ℚ) (suggested_ttl : ℚ)
  | precompile (pattern : String) (count : Nat) (estimated_savings : ℚ)
  | analyze (pattern : String) (avg_cost : ℚ)
  | load_balancing (hour : String) (query_count : Int) (total_cost : ℚ)
  | redundant (query : String) (count : Int) (estimated_savings : ℚ)
deriving DecidableEq

/-- The trailing-30-days volume section of get_optimization_suggestions;
query_count and total_cost are the sqlite aggregates the source reads.
`if query_count and query_count > 100` is Python truthiness on the
count. -/
def volumeSuggestions (query_count : Int) (total_cost : ℚ) : List Suggestion :=
  if query_count ≠ 0 ∧ query_count > 100 then
    [Suggestion.volume_plan query_count (round2 total_cost),
     Suggestion.cache_adjustment ((query_count : ℚ) / 30)
       (max 3600 (min (86400 * 3) (86400 * (100 / ((query_count : ℚ) / 30)))))]
  else []

/-- The per-pattern section of get_optimization_suggestions: for each
common pattern, a precompile suggestion when count ≥ 5 (savings = 90% of
cumulative cost, rounded to 2 decimals), and an analyze suggestion when
the pattern is expensive (avg_cost > 0.1) but rare (count < 5). -/
def patternSuggestions (ps : List CommonPattern) : List Suggestion :=
  ps.flatMap (fun p =>
    (if p.count ≥ 5 then
      [Suggestion.precompile p.pattern p.count
        (round2 (p.avg_cost * (p.count : ℚ) * (9 / 10)))]
     else [])
    ++ (if p.avg_cost > 1 / 10 ∧ p.count < 5 then
      [Suggestion.analyze p.pattern p.avg_cost]
     else []))

/-- The hour-bucket section: rows (hour, count, total_cost) of the
trailing-7-days GROUP BY; a load_balancing suggestion for each bucket
with more than 20 queries. -/
def loadSuggestions (hourRows : List (String × Int × ℚ)) : List Suggestion :=
  hourRows.flatMap (fun r =>
    if r.2.1 > 20 then [Suggestion.load_balancing r.1 r.2.1 (round2 r.2.2)] else [])

/-- The redundant-query section: rows (query, count) of the trailing-day
GROUP BY ... HAVING COUNT(*) > 3 (the HAVING filter is part of the SQL, so
the model receives the already-filtered rows); each yields a caching
suggestion with savings round(0.09 * (count - 1), 2). -/
def redundantSuggestions (rows : List (String × Int)) : List Suggestion :=
  rows.map (fun r => Suggestion.redundant r.1 r.2 (round2 ((9 / 100) * ((r.2 : ℚ) - 1))))

/-- QueryAnalyzer.get_optimization_suggestions: the four sections in
source order.  The sqlite aggregates (30-day totals, hour buckets,
redundant rows) are inputs; the pattern store is read through
get_common_patterns with limit 10. -/
def getOptimizationSuggestions (query_count : Int) (total_cost : ℚ)
    (store : List PatternRow) (hourRows : List (String × Int × ℚ))
    (redundantRows : List (String × Int)) : List Suggestion :=
  volumeSuggestions query_count total_cost
    ++ patternSuggestions (getCommonPatterns store 10)
    ++ loadSuggestions hourRows
    ++ redundantSuggestions redundantRows

example : getHash "  Hello   World " "cfg" none = "hello world|cfg" := by decide
example : getHash "q" "c" (some "") = getHash "q" "c" none := by decide
example :
    (cget (cset (initCache Nat 10 5) 0 "q" "c" 7 none) 3 "q" "c" none).1 = some 7 := by
  decide
example :
    (cget (cset (initCache Nat 1 5) 0 "q" "c" 7 none) 2 "q" "c" none).1 = none := by
  decide
example :
    templateMatches "how many {table} hay" "how many users hay" = (true, ["users"]) := by
  decide
example :
    templateMatches "how many {table} hay" "how many users" = (false, []) := by
  decide
example :
    (templateMatches "how many {table} hay" "how many users hay extra").1 = false := by
  decide
example :
    templateMatches "busca el {table} con id {value}" "busca el user con id a1-b"
      = (true, ["user", "a1-b"]) := by
  decide
example :
    generateQuery none (some "SELECT * FROM $1 WHERE id = $2") ["users"] = none := by
  decide
example :
    generateQuery none (some "SELECT * FROM $1 WHERE id = $2") ["users", "9"]
      = some "SELECT * FROM users WHERE id = 9" := by
  decide

/-! ### Helper lemmas about the memory-tier worker -/

theorem lruUpdate_lookup_pair {α : Type} (limit : Nat) (h k : String) (m : MemTier α) :
    (List.lookup k (lruUpdate limit h m).mc = List.lookup k m.mc ∧
      List.lookup k (lruUpdate limit h m).mts = List.lookup k m.mts) ∨
    (List.lookup k (lruUpdate limit h m).mc = none ∧
      List.lookup k (lruUpdate limit h m).mts = none) := by
  unfold lruUpdate
  dsimp only
  split
  · split
    · split
      · exact Or.inl ⟨rfl, rfl⟩
      · rename_i oldest restl heq
        split
        · by_cases hk : k = oldest
          · subst hk
            exact Or.inr ⟨lookup_aerase_self k m.mc, lookup_aerase_self k m.mts⟩
          · exact Or.inl ⟨lookup_aerase_ne k oldest m.mc hk,
              lookup_aerase_ne k oldest m.mts hk⟩
        · exact Or.inl ⟨rfl, rfl⟩
    · exact Or.inl ⟨rfl, rfl⟩
  · split
    · split
      · exact Or.inl ⟨rfl, rfl⟩
      · rename_i oldest restl heq
        split
        · by_cases hk : k = oldest
          · subst hk
            exact Or.inr ⟨lookup_aerase_self k m.mc, lookup_aerase_self k m.mts⟩
          · exact Or.inl ⟨lookup_aerase_ne k oldest m.mc hk,
              lookup_aerase_ne k oldest m.mts hk⟩
        · exact Or.inl ⟨rfl, rfl⟩
    · exact Or.inl ⟨rfl, rfl⟩

theorem lruUpdate_hit_noevict {α : Type} (limit : Nat) (h : String) (m : MemTier α)
    (hmem : h ∈ m.lru) (hlen : m.lru.length ≤ limit) :
    lruUpdate limit h m = { m with lru := m.lru.erase h ++ [h] } := by
  have herase : (m.lru.erase h).length = m.lru.length - 1 :=
    List.length_erase_of_mem hmem
  have hpos : 1 ≤ m.lru.length := List.length_pos.mpr (List.ne_nil_of_mem hmem)
  have hc : ¬ ((m.lru.erase h ++ [h]).length > limit) := by
    simp only [List.length_append, herase, List.length_singleton]
    omega
  unfold lruUpdate
  dsimp only
  rw [if_pos hmem, if_neg hc]

theorem lruUpdate_fresh_noevict {α : Type} (limit : Nat) (h : String) (m : MemTier α)
    (hmem : h ∉ m.lru) (hlen : m.lru.length < limit) :
    lruUpdate limit h m = { m with lru := m.lru ++ [h] } := by
  have hc : ¬ ((m.lru ++ [h]).length > limit) := by
    simp only [List.length_append, List.length_singleton]
    omega
  unfold lruUpdate
  dsimp only
  rw [if_neg hmem, if_neg hc]

theorem lruUpdate_fresh_evict {α : Type} (limit : Nat) (h : String) (m : MemTier α)
    (o : String) (rest : List String)
    (hmem : h ∉ m.lru) (hlru : m.lru = o :: rest) (hlen : m.lru.length = limit)
    (ho : (List.lookup o m.mc).isSome) :
    lruUpdate limit h m
      = { mc := aerase o m.mc, mts := aerase o m.mts, lru := rest ++ [h] } := by
  unfold lruUpdate
  dsimp only
  rw [if_neg hmem, hlru]
  simp only [List.cons_append]
  have hgt : (o :: (rest ++ [h])).length > limit := by
    have hl : rest.length + 1 = limit := by
      rw [hlru] at hlen
      simpa using hlen
    simp only [List.length_cons, List.length_append, List.length_singleton]
    omega
  rw [if_pos hgt]
  try dsimp only
  rw [if_pos ho]

/-! ### C2: key-derivation determinism and scope separation -/

/-- C2, counterexample: the claim says every call with a scope present
yields a key different from the unscoped key, but the source guard
`if collection_name:` treats the present-but-empty scope "" as absent, so
the two keys coincide. -/
theorem C2_counterexample : getHash "q" "c" (some "") = getHash "q" "c" none := by
  decide

/-- C2 (amended): key derivation is deterministic (equal question,
configuration id and scope always give the same key), and every call with
a NON-EMPTY scope yields a key different from the key of the call with no
scope; a present-but-empty scope "" collapses to the unscoped key. -/
theorem C2_deterministic_and_scope_separated :
    (∀ q1 c1 s1 q2 c2 s2, q1 = q2 → c1 = c2 → s1 = s2 →
      getHash q1 c1 s1 = getHash q2 c2 s2) ∧
    (∀ q c sc, sc ≠ "" → getHash q c (some sc) ≠ getHash q c none) := by
  constructor
  · intro q1 c1 s1 q2 c2 s2 hq hc hs
    subst hq; subst hc; subst hs; rfl
  · intro q c sc hsc heq
    have hlen := congrArg String.length heq
    simp only [getHash, if_neg hsc, String.length_append] at hlen
    have hone : ("|".length : Nat) = 1 := by decide
    omega

/-- C2, witness: the amended theorem applied at question "a",
configuration "c", scope "x". -/
theorem C2_witness : getHash "a" "c" (some "x") ≠ getHash "a" "c" none :=
  C2_deterministic_and_scope_separated.2 "a" "c" "x" (by decide)

/-! ### C10: the composed key pre-image is not injective -/

/-- C10: the separator character | may occur inside a component, so the
triple (question, config "c|s", no scope) collides with (question,
config "c", scope "s") although the triples differ, and the
present-but-empty scope "" collides with the absent scope. -/
theorem C10_key_not_injective :
    (getHash "list users" "c|s" none = getHash "list users" "c" (some "s") ∧
      (("c|s", (none : Option String)) ≠ ("c", (some "s" : Option String)))) ∧
    getHash "count items" "c" (some "") = getHash "count items" "c" none := by
  refine ⟨⟨?_, ?_⟩, ?_⟩ <;> decide

/-! ### C7: unsubstituted positional placeholders abort generation -/

/-- C7: for a declarative template (no custom generator), if after the
positional substitution pass some positional placeholder $i+1 still
occurs in the query string, generate_query returns None instead of a
partially filled query; the embedding is a total function, so no
exception reaches the caller. -/
theorem C7_unsubstituted_placeholder_gives_none (tmpl : String) (params : List String)
    (i : Nat) (l1 l2 : List Char)
    (hremain : substParams tmpl.toList params = l1 ++ placeholder i ++ l2) :
    generateQuery none (some tmpl) params = none := by
  have hmem : '$' ∈ substParams tmpl.toList params := by
    rw [hremain]
    simp [placeholder]
  simp only [generateQuery]
  rw [if_pos hmem]

/-- C7, witness: the theorem applied to the lookup-by-id template shape
with a single captured parameter; $2 survives the pass, so generation
fails. -/
theorem C7_witness :
    generateQuery none (some "SELECT * FROM $1 WHERE id = $2") ["users"] = none :=
  C7_unsubstituted_placeholder_gives_none "SELECT * FROM $1 WHERE id = $2" ["users"] 1
    ("SELECT * FROM users WHERE id = ".toList) [] (by decide)

/-! ### C8: incremental pattern-stat averaging -/

theorem logQuery_fold_stat (detect : String → Option String) (p cfg : String)
    (coll : Option String) (now : Int) (rc : Int) :
    ∀ (entries : List (String × ℚ × ℚ)) (qlog : List LogRecord)
      (pats : List (String × PatternStat)) (k : Nat) (sT sC : ℚ) (lu : Int),
      (∀ e ∈ entries, detect e.1 = some p) →
      List.lookup p pats = some ⟨k, sT / (k : ℚ), sC / (k : ℚ), lu⟩ →
      1 ≤ k →
      ∃ lu2, List.lookup p
        (entries.foldl (fun acc e =>
          logQuery detect acc.1 acc.2 e.1 cfg coll now e.2.1 e.2.2 rc) (qlog, pats)).2
        = some ⟨k + entries.length,
            (sT + (entries.map (fun e => e.2.1)).sum) / ((k : ℚ) + (entries.length : ℚ)),
            (sC + (entries.map (fun e => e.2.2)).sum) / ((k : ℚ) + (entries.length : ℚ)),
            lu2⟩ := by
  intro entries
  induction entries with
  | nil =>
    intro qlog pats k sT sC lu hdet hstat hk
    refine ⟨lu, ?_⟩
    simpa using hstat
  | cons e rest ih =>
    intro qlog pats k sT sC lu hdet hstat hk
    have hdet_e : detect e.1 = some p := hdet e (by simp)
    have hk0 : ((k : ℚ)) ≠ 0 := Nat.cast_ne_zero.mpr (by omega)
    have hupd : updatePatternStat (some ⟨k, sT / (k : ℚ), sC / (k : ℚ), lu⟩) e.2.1 e.2.2 now
        = ⟨k + 1, (sT + e.2.1) / (((k + 1 : Nat)) : ℚ),
            (sC + e.2.2) / (((k + 1 : Nat)) : ℚ), now⟩ := by
      simp only [updatePatternStat, PatternStat.mk.injEq]
      refine ⟨trivial, ?_, ?_, trivial⟩
      · rw [div_mul_cancel₀ sT hk0]
        push_cast
        ring
      · rw [div_mul_cancel₀ sC hk0]
        push_cast
        ring
    have hstep : (logQuery detect qlog pats e.1 cfg coll now e.2.1 e.2.2 rc).2
        = aset p (updatePatternStat (List.lookup p pats) e.2.1 e.2.2 now) pats := by
      simp only [logQuery, hdet_e]
    have hlook : List.lookup p (logQuery detect qlog pats e.1 cfg coll now e.2.1 e.2.2 rc).2
        = some ⟨k + 1, (sT + e.2.1) / (((k + 1 : Nat)) : ℚ),
            (sC + e.2.2) / (((k + 1 : Nat)) : ℚ), now⟩ := by
      rw [hstep, hstat, hupd, lookup_aset_self]
    have hdet_rest : ∀ e2 ∈ rest, detect e2.1 = some p := by
      intro e2 he2
      exact hdet e2 (by simp [he2])
    obtain ⟨lu2, h2⟩ := ih (logQuery detect qlog pats e.1 cfg coll now e.2.1 e.2.2 rc).1
      (logQuery detect qlog pats e.1 cfg coll now e.2.1 e.2.2 rc).2
      (k + 1) (sT + e.2.1) (sC + e.2.2) now hdet_rest hlook (by omega)
    refine ⟨lu2, ?_⟩
    rw [List.foldl_cons]
    rw [Prod.mk.eta] at h2
    rw [h2]
    have hc : k + 1 + rest.length = k + (e :: rest).length := by
      simp only [List.length_cons]
      omega
    have hnum1 : sT + e.2.1 + (rest.map (fun e => e.2.1)).sum
        = sT + ((e :: rest).map (fun e => e.2.1)).sum := by
      simp only [List.map_cons, List.sum_cons]
      ring
    have hnum2 : sC + e.2.2 + (rest.map (fun e => e.2.2)).sum
        = sC + ((e :: rest).map (fun e => e.2.2)).sum := by
      simp only [List.map_cons, List.sum_cons]
      ring
    have hden : (((k + 1 : Nat)) : ℚ) + (rest.length : ℚ)
        = (k : ℚ) + (((e :: rest).length : ℚ)) := by
      simp only [List.length_cons]
      push_cast
      ring
    rw [hc, hnum1, hnum2, hden]

/-- C8: within one run over the same detected pattern, log_query performs
the incremental-average update new_avg = (old_avg * old_count + v) /
(old_count + 1) and a count increment; starting from a store without the
pattern, logging n queries that all detect pattern p with execution times
v1..vn and costs c1..cn leaves occurrence count n, average execution time
(v1+...+vn)/n and average cost (c1+...+cn)/n — the incremental update is
equivalent to recomputing both means from the full history.  Entries are
(question, execution_time, cost) triples; _detect_pattern is the detect
parameter. -/
theorem C8_incremental_average_equals_recomputed_mean
    (detect : String → Option String) (p cfg : String) (coll : Option String)
    (now : Int) (rc : Int) (entries : List (String × ℚ × ℚ))
    (qlog : List LogRecord) (pats : List (String × PatternStat))
    (hdet : ∀ e ∈ entries, detect e.1 = some p)
    (hfresh : List.lookup p pats = none)
    (hne : entries ≠ []) :
    ∃ lu, List.lookup p
      (entries.foldl (fun acc e =>
        logQuery detect acc.1 acc.2 e.1 cfg coll now e.2.1 e.2.2 rc) (qlog, pats)).2
      = some ⟨entries.length,
          (entries.map (fun e => e.2.1)).sum / (entries.length : ℚ),
          (entries.map (fun e => e.2.2)).sum / (entries.length : ℚ), lu⟩ := by
  obtain ⟨e, rest, rfl⟩ := List.exists_cons_of_ne_nil hne
  have hdet_e : detect e.1 = some p := hdet e (by simp)
  have hstep : (logQuery detect qlog pats e.1 cfg coll now e.2.1 e.2.2 rc).2
      = aset p (updatePatternStat (List.lookup p pats) e.2.1 e.2.2 now) pats := by
    simp only [logQuery, hdet_e]
  have hlook : List.lookup p (logQuery detect qlog pats e.1 cfg coll now e.2.1 e.2.2 rc).2
      = some ⟨1, e.2.1 / ((1 : Nat) : ℚ), e.2.2 / ((1 : Nat) : ℚ), now⟩ := by
    rw [hstep, hfresh, lookup_aset_self]
    simp [updatePatternStat]
  have hdet_rest : ∀ e2 ∈ rest, detect e2.1 = some p := by
    intro e2 he2
    exact hdet e2 (by simp [he2])
  obtain ⟨lu2, h2⟩ := logQuery_fold_stat detect p cfg coll now rc rest
    (logQuery detect qlog pats e.1 cfg coll now e.2.1 e.2.2 rc).1
    (logQuery detect qlog pats e.1 cfg coll now e.2.1 e.2.2 rc).2
    1 e.2.1 e.2.2 now hdet_rest (by simpa using hlook) (by omega)
  refine ⟨lu2, ?_⟩
  rw [List.foldl_cons]
  rw [Prod.mk.eta] at h2
  rw [h2]
  have hc : 1 + rest.length = (e :: rest).length := by
    simp only [List.length_cons]
    omega
  have hnum1 : e.2.1 + (rest.map (fun e2 => e2.2.1)).sum
      = ((e :: rest).map (fun e2 => e2.2.1)).sum := by
    simp only [List.map_cons, List.sum_cons]
  have hnum2 : e.2.2 + (rest.map (fun e2 => e2.2.2)).sum
      = ((e :: rest).map (fun e2 => e2.2.2)).sum := by
    simp only [List.map_cons, List.sum_cons]
  have hden : ((1 : Nat) : ℚ) + (rest.length : ℚ) = (((e :: rest).length : ℚ)) := by
    simp only [List.length_cons]
    push_cast
    ring
  rw [hc, hnum1, hnum2, hden]

/-- C8, witness: three queries with execution times 1, 2, 3 (costs all 1)
for one constantly detected pattern give occurrence count 3, average
execution time 2 and average cost 1. -/
theorem C8_witness :
    ∃ lu st, List.lookup "pat"
      (([("a", (1 : ℚ), (1 : ℚ)), ("b", 2, 1), ("c", 3, 1)]).foldl (fun acc e =>
        logQuery (fun _ => some "pat") acc.1 acc.2 e.1 "cfg" none 0 e.2.1 e.2.2 0)
        ([], [])).2 = some st
      ∧ st.count = 3 ∧ st.avg_execution_time = 2 ∧ st.avg_cost = 1
      ∧ st.last_updated = lu := by
  obtain ⟨lu, hl⟩ := C8_incremental_average_equals_recomputed_mean
    (fun _ => some "pat") "pat" "cfg" none 0 0
    [("a", (1 : ℚ), (1 : ℚ)), ("b", 2, 1), ("c", 3, 1)] [] []
    (by intro e he; rfl) rfl (by decide)
  refine ⟨lu, _, hl, ?_, ?_, ?_, rfl⟩
  · rfl
  · norm_num
  · norm_num

/-! ### C9: precompile suggestions for frequent patterns -/

/-- C9 (amended): get_optimization_suggestions emits the precompile
suggestion (savings = 90% of cumulative cost, rounded to 2 decimals) for
every pattern with occurrence count at least 5 that is AMONG THE TEN most
frequent patterns — the source reads the store through
get_common_patterns(10), so a qualifying pattern outside the top ten gets
no suggestion. -/
theorem C9_precompile_for_top10_frequent (query_count : Int) (total_cost : ℚ)
    (store : List PatternRow) (hourRows : List (String × Int × ℚ))
    (redundantRows : List (String × Int)) (r : CommonPattern)
    (hr : r ∈ getCommonPatterns store 10) (hc : 5 ≤ r.count) :
    Suggestion.precompile r.pattern r.count (round2 (r.avg_cost * (r.count : ℚ) * (9 / 10)))
      ∈ getOptimizationSuggestions query_count total_cost store hourRows redundantRows := by
  unfold getOptimizationSuggestions
  refine List.mem_append.mpr (Or.inl (List.mem_append.mpr (Or.inl
    (List.mem_append.mpr (Or.inr ?_)))))
  unfold patternSuggestions
  rw [List.mem_flatMap]
  refine ⟨r, hr, ?_⟩
  rw [if_pos hc]
  simp

/-- C9, witness: a store holding one pattern with count 6 yields its
precompile suggestion. -/
theorem C9_witness :
    Suggestion.precompile "pp" 6 (round2 ((1 : ℚ) * ((6 : Nat) : ℚ) * (9 / 10)))
      ∈ getOptimizationSuggestions 5 0 [⟨"pp", 6, 1, 1⟩] [] [] :=
  C9_precompile_for_top10_frequent 5 0 [⟨"pp", 6, 1, 1⟩] [] []
    ⟨"pp", 6, 1, 1, round2 ((1 : ℚ) * ((6 : Nat) : ℚ) * 30 / 7)⟩
    (by simp [getCommonPatterns, sortByCountDesc, insertByCount]) (by decide)

/-- C9, counterexample: with eleven stored patterns of counts 15..5, the
pattern p11 has occurrence count 5 (≥ 5) yet receives no precompile
suggestion, because get_common_patterns truncates to the ten most
frequent patterns before the suggestion loop. -/
def store11 : List PatternRow :=
  [⟨"p1", 15, 1, 1⟩, ⟨"p2", 14, 1, 1⟩, ⟨"p3", 13, 1, 1⟩, ⟨"p4", 12, 1, 1⟩,
   ⟨"p5", 11, 1, 1⟩, ⟨"p6", 10, 1, 1⟩, ⟨"p7", 9, 1, 1⟩, ⟨"p8", 8, 1, 1⟩,
   ⟨"p9", 7, 1, 1⟩, ⟨"p10", 6, 1, 1⟩, ⟨"p11", 5, 1, 1⟩]

/-- True exactly on precompile suggestions for the given pattern name. -/
def isPrecompileFor (pat : String) : Suggestion → Bool
  | .precompile p _ _ => p = pat
  | _ => false

theorem C9_counterexample :
    (∃ row ∈ store11, row.pattern = "p11" ∧ 5 ≤ row.count) ∧
    (getOptimizationSuggestions 0 0 store11 [] []).all
      (fun sg => !(isPrecompileFor "p11" sg)) = true := by
  constructor
  · refine ⟨⟨"p11", 5, 1, 1⟩, ?_, rfl, by decide⟩
    simp [store11]
  · norm_num [getOptimizationSuggestions, volumeSuggestions, patternSuggestions,
      loadSuggestions, redundantSuggestions, getCommonPatterns, sortByCountDesc,
      insertByCount, store11, isPrecompileFor]
    refine ⟨?_, ?_, ?_, ?_, ?_, ?_, ?_, ?_, ?_, ?_⟩ <;> decide

/-! ### C1: expiry on disk purges the file but not the index row -/

/-- C1 (amended): when the on-disk payload of a key has expired (file age
at least the TTL) and the memory tier does not serve the key (absent, or
present but stale), the next get returns None, deletes the payload file,
and leaves the key absent from the memory cache — but the cache_metadata
index row is NOT removed: the metadata table is left entirely unchanged,
so an orphan index row persists. -/
theorem C1_expired_disk_entry_get (α : Type) (s : CacheState α) (now : Int)
    (q cfg : String) (scope : Option String) (v : α) (mt : Int)
    (hmem : List.lookup (getHash q cfg scope) s.memory_cache = none ∨
      (∃ ts, List.lookup (getHash q cfg scope) s.memory_timestamps = some ts ∧
        s.ttl ≤ now - ts))
    (hdisk : List.lookup (getHash q cfg scope) s.disk = some (v, mt))
    (hexp : s.ttl ≤ now - mt) :
    (cget s now q cfg scope).1 = none ∧
    List.lookup (getHash q cfg scope) (cget s now q cfg scope).2.disk = none ∧
    (cget s now q cfg scope).2.metadata = s.metadata ∧
    List.lookup (getHash q cfg scope) (cget s now q cfg scope).2.memory_cache = none := by
  simp only [cget]
  cases hmc : List.lookup (getHash q cfg scope) s.memory_cache with
  | none =>
    dsimp only
    simp only [diskGet]
    rw [hdisk]
    dsimp only
    rw [if_neg (show ¬ (now - mt < s.ttl) by omega)]
    exact ⟨rfl, lookup_aerase_self _ _, rfl, hmc⟩
  | some v2 =>
    dsimp only
    rcases hmem with hmem | ⟨ts, hts, hstale⟩
    · rw [hmc] at hmem
      exact absurd hmem (by simp)
    · rw [hts]
      dsimp only
      rw [if_neg (show ¬ (now - ts < s.ttl) by omega)]
      simp only [diskGet]
      rw [hdisk]
      dsimp only
      rw [if_neg (show ¬ (now - mt < s.ttl) by omega)]
      exact ⟨rfl, lookup_aerase_self _ _, rfl, lookup_aerase_self _ _⟩

/-- C1, counterexample to the claim as stated: TTL 1, set at time 0, get
at time 2 — the get misses and the payload file is gone, but the index
row for the key is still present in cache_metadata, so the entry is NOT
purged from persistent storage as a whole and an orphan index row
persists. -/
theorem C1_counterexample :
    ((cget (cset (initCache Nat 1 100) 0 "q" "c" 7 none) 2 "q" "c" none).1 = none) ∧
    (List.lookup (getHash "q" "c" none)
      (cget (cset (initCache Nat 1 100) 0 "q" "c" 7 none) 2 "q" "c" none).2.disk
      = none) ∧
    (List.lookup (getHash "q" "c" none)
      (cget (cset (initCache Nat 1 100) 0 "q" "c" 7 none) 2 "q" "c" none).2.metadata
      ≠ none) := by
  refine ⟨?_, ?_, ?_⟩ <;> decide

/-- C1, witness: the amended theorem applied to the TTL-1 trace (set at
time 0, get at time 2). -/
theorem C1_witness :
    ((cget (cset (initCache Nat 1 100) 0 "q" "c" 7 none) 2 "q" "c" none).1 = none) ∧
    (List.lookup (getHash "q" "c" none)
      (cget (cset (initCache Nat 1 100) 0 "q" "c" 7 none) 2 "q" "c" none).2.disk
      = none) := by
  have h := C1_expired_disk_entry_get Nat (cset (initCache Nat 1 100) 0 "q" "c" 7 none)
    2 "q" "c" none 7 0 (Or.inr ⟨0, by decide, by decide⟩) (by decide) (by decide)
  exact ⟨h.1, h.2.1⟩

/-! ### C3: set-then-get round trip -/

/-- C3: for every state, question, configuration id, optional scope and
payload, a set at time t followed (with no intervening operation) by a
get at time t2 with the same question, configuration and scope returns
exactly the stored payload, provided the elapsed time t2 - t is
nonnegative and below the TTL.  This holds even when the set itself
evicted the new key from the memory tier (memory_limit 0): the get is
then served by the disk tier. -/
theorem C3_set_get_round_trip {α : Type} (s : CacheState α) (t t2 : Int)
    (q cfg : String) (scope : Option String) (v : α)
    (h1 : t ≤ t2) (h2 : t2 - t < s.ttl) :
    (cget (cset s t q cfg v scope) t2 q cfg scope).1 = some v := by
  have hpair := lruUpdate_lookup_pair s.memory_limit (getHash q cfg scope)
    (getHash q cfg scope)
    (MemTier.mk (aset (getHash q cfg scope) v s.memory_cache)
      (aset (getHash q cfg scope) t s.memory_timestamps) s.memory_lru)
  simp only [lookup_aset_self] at hpair
  simp only [cget, cset, memInsert, memTier]
  rcases hpair with ⟨hmc, hmts⟩ | ⟨hmc, hmts⟩
  · rw [hmc, hmts]
    dsimp only
    rw [if_pos (show t2 - t < s.ttl by omega)]
  · rw [hmc]
    dsimp only
    simp only [diskGet]
    rw [lookup_aset_self]
    dsimp only
    rw [if_pos (show t2 - t < s.ttl by omega)]

/-- C3, witness: the round trip at TTL 10, set at time 0, get at time 3. -/
theorem C3_witness :
    (cget (cset (initCache Nat 10 5) 0 "list users" "c1" 42 (some "users")) 3
      "list users" "c1" (some "users")).1 = some 42 :=
  C3_set_get_round_trip (initCache Nat 10 5) 0 3 "list users" "c1" (some "users") 42
    (by decide) (by decide)

/-! ### C5: clear(older_than) cutoff semantics -/

theorem lookup_foldl_aerase {β : Type} (ks : List String) (m : List (String × β))
    (k : String) :
    List.lookup k (ks.foldl (fun acc k2 => aerase k2 acc) m)
      = if k ∈ ks then none else List.lookup k m := by
  induction ks generalizing m with
  | nil => simp
  | cons a ks ih =>
    rw [List.foldl_cons, ih]
    by_cases hk : k = a
    · subst hk
      rw [if_pos (List.mem_cons_self k ks)]
      split
      · rfl
      · exact lookup_aerase_self k m
    · rw [lookup_aerase_ne k a m hk]
      simp [List.mem_cons, hk]

theorem mem_filter_keys_iff {β : Type} (l : List (String × β)) (p : String × β → Bool)
    (k : String) (hnd : (l.map Prod.fst).Nodup) :
    (k ∈ (l.filter p).map Prod.fst) ↔ ∃ v, List.lookup k l = some v ∧ p (k, v) = true := by
  induction l with
  | nil => simp
  | cons a l ih =>
    rw [List.map_cons, List.nodup_cons] at hnd
    obtain ⟨ha, hnd2⟩ := hnd
    rw [List.filter_cons]
    by_cases hk : k = a.1
    · subst hk
      constructor
      · intro hmem
        cases hpa : p a with
        | true =>
          refine ⟨a.2, ?_, ?_⟩
          · rw [List.lookup_cons]
            simp
          · rw [Prod.mk.eta]
            exact hpa
        | false =>
          rw [hpa] at hmem
          simp only [Bool.false_eq_true, if_false] at hmem
          exfalso
          apply ha
          rw [List.mem_map] at hmem
          obtain ⟨q2, hq2, hfst⟩ := hmem
          rw [List.mem_map]
          exact ⟨q2, (List.mem_filter.mp hq2).1, hfst⟩
      · rintro ⟨v, hv, hp⟩
        rw [List.lookup_cons] at hv
        simp only [beq_self_eq_true] at hv
        rw [Option.some_inj] at hv
        subst hv
        rw [Prod.mk.eta] at hp
        rw [hp]
        simp
    · have hb : (k == a.1) = false := by simpa using hk
      constructor
      · intro hmem
        have hmem2 : k ∈ (l.filter p).map Prod.fst := by
          cases hpa : p a with
          | true => rw [hpa] at hmem; simpa [hk] using hmem
          | false => rw [hpa] at hmem; simpa using hmem
        obtain ⟨v, hv, hp⟩ := (ih hnd2).mp hmem2
        refine ⟨v, ?_, hp⟩
        rw [List.lookup_cons]
        simp only [hb]
        exact hv
      · rintro ⟨v, hv, hp⟩
        rw [List.lookup_cons] at hv
        simp only [hb] at hv
        have hmem2 : k ∈ (l.filter p).map Prod.fst := (ih hnd2).mpr ⟨v, hv, hp⟩
        cases hpa : p a with
        | true => simp [hmem2]
        | false => simpa using hmem2

/-- C5 (amended): with a truthy cutoff d, clear removes from the
PERSISTENT tier exactly the entries whose metadata last-accessed time is
older than now - d (payload file and index row together), but removes
from the MEMORY tier exactly the entries whose stored memory timestamp —
the time of the last set or disk promotion, which a memory hit does NOT
refresh — is more than d old.  A recently hit entry is therefore kept on
disk but can still be dropped from the memory tier.  The four conjuncts
characterize removal and retention per tier (for states whose maps have
unique keys, as all API-produced states do). -/
theorem C5_clear_cutoff_semantics {α : Type} (s : CacheState α) (now d : Int)
    (hd : d ≠ 0)
    (hmts_nd : (s.memory_timestamps.map Prod.fst).Nodup)
    (hmd_nd : (s.metadata.map Prod.fst).Nodup) :
    (∀ k ts, List.lookup k s.memory_timestamps = some ts → now - ts > d →
      List.lookup k (cclear s now (some d)).memory_cache = none ∧
      List.lookup k (cclear s now (some d)).memory_timestamps = none) ∧
    (∀ k ts, List.lookup k s.memory_timestamps = some ts → ¬(now - ts > d) →
      List.lookup k (cclear s now (some d)).memory_cache
        = List.lookup k s.memory_cache ∧
      List.lookup k (cclear s now (some d)).memory_timestamps = some ts) ∧
    (∀ k r, List.lookup k s.metadata = some r → r.last_accessed < now - d →
      List.lookup k (cclear s now (some d)).metadata = none ∧
      List.lookup k (cclear s now (some d)).disk = none) ∧
    (∀ k r, List.lookup k s.metadata = some r → ¬(r.last_accessed < now - d) →
      List.lookup k (cclear s now (some d)).metadata = some r ∧
      List.lookup k (cclear s now (some d)).disk = List.lookup k s.disk) := by
  have hkeys : ∀ k, (k ∈ ((s.memory_timestamps.filter
        (fun p => now - p.2 > d)).map Prod.fst))
      ↔ ∃ ts, List.lookup k s.memory_timestamps = some ts ∧ now - ts > d := by
    intro k
    rw [mem_filter_keys_iff _ _ _ hmts_nd]
    constructor
    · rintro ⟨v, hv, hp⟩
      exact ⟨v, hv, by simpa using hp⟩
    · rintro ⟨v, hv, hp⟩
      exact ⟨v, hv, by simpa using hp⟩
  have hold : ∀ k, (k ∈ ((s.metadata.filter
        (fun p => p.2.last_accessed < now - d)).map Prod.fst))
      ↔ ∃ r, List.lookup k s.metadata = some r ∧ r.last_accessed < now - d := by
    intro k
    rw [mem_filter_keys_iff _ _ _ hmd_nd]
    constructor
    · rintro ⟨v, hv, hp⟩
      exact ⟨v, hv, by simpa using hp⟩
    · rintro ⟨v, hv, hp⟩
      exact ⟨v, hv, by simpa using hp⟩
  simp only [cclear]
  rw [if_neg hd]
  dsimp only
  refine ⟨?_, ?_, ?_, ?_⟩
  · intro k ts hts hgt
    rw [lookup_foldl_aerase, lookup_foldl_aerase]
    rw [if_pos ((hkeys k).mpr ⟨ts, hts, hgt⟩), if_pos ((hkeys k).mpr ⟨ts, hts, hgt⟩)]
    exact ⟨rfl, rfl⟩
  · intro k ts hts hle
    have hnot : k ∉ ((s.memory_timestamps.filter
        (fun p => now - p.2 > d)).map Prod.fst) := by
      intro hk
      obtain ⟨ts2, hts2, hgt2⟩ := (hkeys k).mp hk
      rw [hts] at hts2
      rw [Option.some_inj] at hts2
      subst hts2
      exact hle hgt2
    rw [lookup_foldl_aerase, lookup_foldl_aerase]
    rw [if_neg hnot, if_neg hnot]
    exact ⟨rfl, hts⟩
  · intro k r hr hlt
    rw [lookup_foldl_aerase, lookup_foldl_aerase]
    rw [if_pos ((hold k).mpr ⟨r, hr, hlt⟩), if_pos ((hold k).mpr ⟨r, hr, hlt⟩)]
    exact ⟨rfl, rfl⟩
  · intro k r hr hge
    have hnot : k ∉ ((s.metadata.filter
        (fun p => p.2.last_accessed < now - d)).map Prod.fst) := by
      intro hk
      obtain ⟨r2, hr2, hlt2⟩ := (hold k).mp hk
      rw [hr] at hr2
      rw [Option.some_inj] at hr2
      subst hr2
      exact hge hlt2
    rw [lookup_foldl_aerase, lookup_foldl_aerase]
    rw [if_neg hnot, if_neg hnot]
    exact ⟨hr, rfl⟩

/-- C5, counterexample to the claim as stated: set at time 0, memory hit
at time 5 (which refreshes metadata last_accessed to 5 but not the memory
timestamp), then clear(older_than = 3) at time 6.  The entry was accessed
more recently than the cutoff (6 - 5 = 1 < 3, recorded in the metadata),
so per the claim it should be removed from neither tier — yet it IS
removed from the memory tier (its memory timestamp 0 is 6 seconds old),
while the disk tier keeps it. -/
theorem C5_counterexample :
    ((cget (cset (initCache Nat 100 10) 0 "q" "c" 7 none) 5 "q" "c" none).1 = some 7) ∧
    ((List.lookup (getHash "q" "c" none)
        (cget (cset (initCache Nat 100 10) 0 "q" "c" 7 none) 5 "q" "c" none).2.metadata).map
        MetaRow.last_accessed = some 5) ∧
    (List.lookup (getHash "q" "c" none)
        (cclear (cget (cset (initCache Nat 100 10) 0 "q" "c" 7 none) 5 "q" "c" none).2
          6 (some 3)).memory_cache = none) ∧
    (List.lookup (getHash "q" "c" none)
        (cclear (cget (cset (initCache Nat 100 10) 0 "q" "c" 7 none) 5 "q" "c" none).2
          6 (some 3)).disk ≠ none) := by
  refine ⟨?_, ?_, ?_, ?_⟩ <;> decide

/-- C5, witness: the amended theorem applied to a one-entry cache whose
memory timestamp is 0 but whose metadata last-accessed is 5, cleared with
cutoff 3 at time 6: the memory entry goes, the disk entry stays. -/
theorem C5_witness :
    (List.lookup "h" (cclear (CacheState.mk [("h", (7 : Nat))] [("h", 0)] 10 ["h"] 100
        [("h", (7, 0))] [("h", MetaRow.mk "q" "c" 0 5 2)]) 6 (some 3)).memory_cache
      = none) ∧
    (List.lookup "h" (cclear (CacheState.mk [("h", (7 : Nat))] [("h", 0)] 10 ["h"] 100
        [("h", (7, 0))] [("h", MetaRow.mk "q" "c" 0 5 2)]) 6 (some 3)).disk
      = some (7, 0)) := by
  have h := C5_clear_cutoff_semantics
    (CacheState.mk [("h", (7 : Nat))] [("h", 0)] 10 ["h"] 100
      [("h", (7, 0))] [("h", MetaRow.mk "q" "c" 0 5 2)]) 6 3
    (by decide) (by decide) (by decide)
  refine ⟨(h.1 "h" 0 (by decide) (by decide)).1, ?_⟩
  have h4 := (h.2.2.2 "h" (MetaRow.mk "q" "c" 0 5 2) (by decide) (by decide)).2
  rw [h4]
  decide

/-! ### C4: LRU eviction in the memory tier -/

theorem memInsert_fresh_noevict {α : Type} (limit : Nat) (h : String) (v : α) (t : Int)
    (m : MemTier α) (hmem : h ∉ m.lru) (hlen : m.lru.length < limit) :
    memInsert limit h v t m
      = MemTier.mk (aset h v m.mc) (aset h t m.mts) (m.lru ++ [h]) := by
  unfold memInsert
  rw [lruUpdate_fresh_noevict]
  · exact hmem
  · exact hlen

theorem memInsert_fresh_evict {α : Type} (limit : Nat) (h : String) (v : α) (t : Int)
    (m : MemTier α) (o : String) (rest : List String)
    (hmem : h ∉ m.lru) (hlru : m.lru = o :: rest) (hlen : m.lru.length = limit)
    (ho : (List.lookup o (aset h v m.mc)).isSome) :
    memInsert limit h v t m
      = MemTier.mk (aerase o (aset h v m.mc)) (aerase o (aset h t m.mts))
          (rest ++ [h]) := by
  unfold memInsert
  exact lruUpdate_fresh_evict limit h
    (MemTier.mk (aset h v m.mc) (aset h t m.mts) m.lru) o rest hmem hlru hlen ho

theorem memInsert_fold_fresh {α : Type} (limit : Nat) (v : α) (t : Int) :
    ∀ (hs : List String) (m : MemTier α),
      (∀ k, (List.lookup k m.mc).isSome ↔ k ∈ m.lru) →
      (m.lru ++ hs).Nodup →
      m.lru.length + hs.length ≤ limit →
      ((hs.foldl (fun mm h2 => memInsert limit h2 v t mm) m).lru = m.lru ++ hs ∧
       (∀ k, (List.lookup k
          (hs.foldl (fun mm h2 => memInsert limit h2 v t mm) m).mc).isSome
          ↔ k ∈ m.lru ++ hs) ∧
       (∀ k, k ∈ hs →
          List.lookup k (hs.foldl (fun mm h2 => memInsert limit h2 v t mm) m).mc
            = some v ∧
          List.lookup k (hs.foldl (fun mm h2 => memInsert limit h2 v t mm) m).mts
            = some t) ∧
       (∀ k, k ∉ hs →
          List.lookup k (hs.foldl (fun mm h2 => memInsert limit h2 v t mm) m).mc
            = List.lookup k m.mc ∧
          List.lookup k (hs.foldl (fun mm h2 => memInsert limit h2 v t mm) m).mts
            = List.lookup k m.mts)) := by
  intro hs
  induction hs with
  | nil =>
    intro m hsync hnd hlen
    refine ⟨by simp, by simpa using hsync, by simp, by simp⟩
  | cons h2 hs ih =>
    intro m hsync hnd hlen
    have hnd2 : ((m.lru ++ [h2]) ++ hs).Nodup := by
      rw [List.append_assoc, List.singleton_append]
      exact hnd
    have hnotlru : h2 ∉ m.lru := by
      rcases List.nodup_append.mp hnd with ⟨_, _, hdisj⟩
      intro hmem
      exact hdisj hmem (List.mem_cons_self h2 hs)
    have hnoths : h2 ∉ hs := by
      rcases List.nodup_append.mp hnd with ⟨_, hnds, _⟩
      exact (List.nodup_cons.mp hnds).1
    have hlt : m.lru.length < limit := by
      simp only [List.length_cons] at hlen
      omega
    have hstep := memInsert_fresh_noevict limit h2 v t m hnotlru hlt
    have hsync1 : ∀ k, (List.lookup k (aset h2 v m.mc)).isSome ↔ k ∈ m.lru ++ [h2] := by
      intro k
      by_cases hk : k = h2
      · subst hk
        rw [lookup_aset_self]
        simp
      · rw [lookup_aset_ne k h2 v m.mc hk]
        rw [hsync k]
        simp [hk]
    have hlen1 : (m.lru ++ [h2]).length + hs.length ≤ limit := by
      simp only [List.length_append, List.length_cons, List.length_nil] at hlen ⊢
      omega
    obtain ⟨hlru2, hsync2, hvals2, hpres2⟩ :=
      ih (MemTier.mk (aset h2 v m.mc) (aset h2 t m.mts) (m.lru ++ [h2])) hsync1 hnd2 hlen1
    rw [List.foldl_cons, hstep]
    refine ⟨?_, ?_, ?_, ?_⟩
    · rw [hlru2]
      simp
    · intro k
      rw [hsync2 k]
      simp
    · intro k hk
      rcases List.mem_cons.mp hk with hk | hk
      · subst hk
        obtain ⟨hp1, hp2⟩ := hpres2 k hnoths
        rw [hp1, hp2, lookup_aset_self, lookup_aset_self]
        exact ⟨rfl, rfl⟩
      · exact hvals2 k hk
    · intro k hk
      have hk2 : k ≠ h2 := fun he => hk (he ▸ List.mem_cons_self h2 hs)
      have hkhs : k ∉ hs := fun he => hk (List.mem_cons_of_mem h2 he)
      obtain ⟨hp1, hp2⟩ := hpres2 k hkhs
      rw [hp1, hp2, lookup_aset_ne k h2 v m.mc hk2, lookup_aset_ne k h2 t m.mts hk2]
      exact ⟨rfl, rfl⟩

theorem cset_fold_tier {α : Type} (cfg : String) (v : α) (t : Int) :
    ∀ (qs : List String) (s : CacheState α),
      ((qs.foldl (fun st q => cset st t q cfg v none) s).memory_cache
         = (qs.foldl (fun mm q => memInsert s.memory_limit (getHash q cfg none) v t mm)
             (memTier s)).mc) ∧
      ((qs.foldl (fun st q => cset st t q cfg v none) s).memory_timestamps
         = (qs.foldl (fun mm q => memInsert s.memory_limit (getHash q cfg none) v t mm)
             (memTier s)).mts) ∧
      ((qs.foldl (fun st q => cset st t q cfg v none) s).memory_lru
         = (qs.foldl (fun mm q => memInsert s.memory_limit (getHash q cfg none) v t mm)
             (memTier s)).lru) ∧
      (qs.foldl (fun st q => cset st t q cfg v none) s).memory_limit
         = s.memory_limit := by
  intro qs
  induction qs with
  | nil =>
    intro s
    exact ⟨rfl, rfl, rfl, rfl⟩
  | cons q qs ih =>
    intro s
    rw [List.foldl_cons, List.foldl_cons]
    exact ih (cset s t q cfg v none)

theorem C4_partA (α : Type) (v : α) (t ttl : Int) (limit : Nat) (cfg : String)
    (qs : List String)
    (hnd : (qs.map (fun q => getHash q cfg none)).Nodup)
    (hlen : qs.length = limit + 1)
    (hlim : 1 ≤ limit) :
    ((qs.foldl (fun st q => cset st t q cfg v none) (initCache α ttl limit)).memory_lru
       = (qs.map (fun q => getHash q cfg none)).tail ∧
     (∀ k, (List.lookup k (qs.foldl (fun st q => cset st t q cfg v none)
        (initCache α ttl limit)).memory_cache).isSome
        ↔ k ∈ (qs.map (fun q => getHash q cfg none)).tail)) := by
  rcases List.eq_nil_or_concat qs with rfl | ⟨qs0, qn, rfl⟩
  · simp at hlen
  · simp only [List.concat_eq_append] at hnd hlen ⊢
    have hbr0 := cset_fold_tier cfg v t qs0 (initCache α ttl limit)
    have hT : (qs0.foldl (fun mm q =>
          memInsert (initCache α ttl limit).memory_limit (getHash q cfg none) v t mm)
          (memTier (initCache α ttl limit)))
        = (qs0.map (fun q => getHash q cfg none)).foldl
            (fun mm h2 => memInsert limit h2 v t mm) (MemTier.mk [] [] []) := by
      rw [List.foldl_map]
      rfl
    have hlen0 : (qs0.map (fun q => getHash q cfg none)).length = limit := by
      rw [List.length_map]
      rw [List.length_append] at hlen
      simp only [List.length_cons, List.length_nil] at hlen
      omega
    have hnd0 : ((MemTier.mk (α := α) [] [] []).lru
        ++ qs0.map (fun q => getHash q cfg none)).Nodup := by
      simp only [List.nil_append]
      rw [List.map_append] at hnd
      exact hnd.of_append_left
    have hfold := memInsert_fold_fresh limit v t (qs0.map (fun q => getHash q cfg none))
      (MemTier.mk [] [] []) (by simp) hnd0 (by simpa using le_of_eq hlen0)
    obtain ⟨hlru0, hsync0, hvals0, hpres0⟩ := hfold
    simp only [List.nil_append] at hlru0 hsync0
    -- the last key is fresh
    have hnmem : getHash qn cfg none ∉ qs0.map (fun q => getHash q cfg none) := by
      rw [List.map_append] at hnd
      rcases List.nodup_append.mp hnd with ⟨_, _, hdisj⟩
      intro hmem
      exact hdisj hmem (by simp)
    -- decompose the first limit hashes
    obtain ⟨o, rest, ho⟩ : ∃ o rest, qs0.map (fun q => getHash q cfg none) = o :: rest := by
      cases hq : qs0.map (fun q => getHash q cfg none) with
      | nil =>
        rw [hq] at hlen0
        simp at hlen0
        omega
      | cons o rest => exact ⟨o, rest, rfl⟩
    -- state-level fold: last step is one cset on the fold over qs0
    rw [List.foldl_append, List.foldl_cons, List.foldl_nil]
    have hmt : memTier (qs0.foldl (fun st q => cset st t q cfg v none)
        (initCache α ttl limit))
        = (qs0.map (fun q => getHash q cfg none)).foldl
            (fun mm h2 => memInsert limit h2 v t mm) (MemTier.mk [] [] []) := by
      show MemTier.mk _ _ _ = _
      rw [hbr0.1, hbr0.2.1, hbr0.2.2.1, hT]
    have hlimit : (qs0.foldl (fun st q => cset st t q cfg v none)
        (initCache α ttl limit)).memory_limit = limit := hbr0.2.2.2
    -- the final cset, at tier level
    have hcsetlru : (cset (qs0.foldl (fun st q => cset st t q cfg v none)
          (initCache α ttl limit)) t qn cfg v none).memory_lru
        = (memInsert limit (getHash qn cfg none) v t
            ((qs0.map (fun q => getHash q cfg none)).foldl
              (fun mm h2 => memInsert limit h2 v t mm) (MemTier.mk [] [] []))).lru := by
      show (memInsert _ (getHash qn cfg none) v t (memTier _)).lru = _
      rw [hlimit, hmt]
    have hcsetmc : (cset (qs0.foldl (fun st q => cset st t q cfg v none)
          (initCache α ttl limit)) t qn cfg v none).memory_cache
        = (memInsert limit (getHash qn cfg none) v t
            ((qs0.map (fun q => getHash q cfg none)).foldl
              (fun mm h2 => memInsert limit h2 v t mm) (MemTier.mk [] [] []))).mc := by
      show (memInsert _ (getHash qn cfg none) v t (memTier _)).mc = _
      rw [hlimit, hmt]
    -- o is resident, so the eviction branch fires
    have hosync : (List.lookup o ((qs0.map (fun q => getHash q cfg none)).foldl
        (fun mm h2 => memInsert limit h2 v t mm) (MemTier.mk [] [] [])).mc).isSome := by
      rw [hsync0 o, ho]
      simp
    have honeq : o ≠ getHash qn cfg none := by
      intro he
      apply hnmem
      rw [← he, ho]
      simp
    have hevict := memInsert_fresh_evict limit (getHash qn cfg none) v t
      ((qs0.map (fun q => getHash q cfg none)).foldl
        (fun mm h2 => memInsert limit h2 v t mm) (MemTier.mk [] [] []))
      o rest
      (by rw [hlru0]; exact hnmem)
      (by rw [hlru0]; exact ho)
      (by rw [hlru0, hlen0])
      (by rw [lookup_aset_ne o _ v _ honeq]; exact hosync)
    -- nodup facts about the first-tier hashes
    have hnd_hs0 : (qs0.map (fun q => getHash q cfg none)).Nodup := by
      rw [List.map_append] at hnd
      exact hnd.of_append_left
    have honotrest : o ∉ rest := by
      rw [ho] at hnd_hs0
      exact (List.nodup_cons.mp hnd_hs0).1
    have htail : ((qs0 ++ [qn]).map (fun q => getHash q cfg none)).tail
        = rest ++ [getHash qn cfg none] := by
      rw [List.map_append, ho]
      simp
    refine ⟨?_, ?_⟩
    · rw [hcsetlru, hevict, htail]
    · intro k
      rw [hcsetmc, hevict, htail]
      by_cases hko : k = o
      · subst hko
        rw [lookup_aerase_self]
        simp only [Option.isSome_none, Bool.false_eq_true, false_iff]
        intro hmem
        rcases List.mem_append.mp hmem with hmem | hmem
        · exact honotrest hmem
        · simp only [List.mem_singleton] at hmem
          exact honeq hmem
      · rw [lookup_aerase_ne k o _ hko]
        by_cases hkn : k = getHash qn cfg none
        · subst hkn
          rw [lookup_aset_self]
          simp
        · rw [lookup_aset_ne k _ v _ hkn]
          rw [hsync0 k, ho]
          simp only [List.mem_cons, List.mem_append, List.mem_singleton,
            List.not_mem_nil, or_false]
          constructor
          · intro hk2
            rcases hk2 with hk2 | hk2
            · exact absurd hk2 hko
            · exact Or.inl hk2
          · intro hk2
            rcases hk2 with hk2 | hk2
            · exact Or.inr hk2
            · exact absurd hk2 hkn

theorem C4_partB (α : Type) (s : CacheState α) (now : Int) (q cfg : String)
    (scope : Option String) (v : α) (ts : Int)
    (hmc : List.lookup (getHash q cfg scope) s.memory_cache = some v)
    (hmts : List.lookup (getHash q cfg scope) s.memory_timestamps = some ts)
    (hfresh : now - ts < s.ttl)
    (hmem : getHash q cfg scope ∈ s.memory_lru)
    (hlen : s.memory_lru.length ≤ s.memory_limit) :
    (cget s now q cfg scope).1 = some v ∧
    (cget s now q cfg scope).2.memory_lru
      = s.memory_lru.erase (getHash q cfg scope) ++ [getHash q cfg scope] := by
  simp only [cget]
  rw [hmc, hmts]
  dsimp only
  rw [if_pos hfresh]
  refine ⟨rfl, ?_⟩
  show (lruUpdate s.memory_limit (getHash q cfg scope) (memTier s)).lru = _
  rw [lruUpdate_hit_noevict s.memory_limit (getHash q cfg scope) (memTier s) hmem hlen]
  rfl

theorem C4_partC (α : Type) (s : CacheState α) (now now2 : Int) (q q2 cfg : String)
    (scope : Option String) (v v2 : α) (ts : Int)
    (hsync : ∀ k ∈ s.memory_lru, (List.lookup k s.memory_cache).isSome)
    (hnd : s.memory_lru.Nodup)
    (hmc : List.lookup (getHash q cfg scope) s.memory_cache = some v)
    (hmts : List.lookup (getHash q cfg scope) s.memory_timestamps = some ts)
    (hfresh : now - ts < s.ttl)
    (hmem : getHash q cfg scope ∈ s.memory_lru)
    (hfull : s.memory_lru.length = s.memory_limit)
    (hother : s.memory_lru.erase (getHash q cfg scope) ≠ [])
    (hnew : getHash q2 cfg scope ∉ s.memory_lru)
    (hne : getHash q2 cfg scope ≠ getHash q cfg scope) :
    (List.lookup (getHash q cfg scope)
      (cset ((cget s now q cfg scope).2) now2 q2 cfg v2 scope).memory_cache).isSome := by
  -- the memory tier after the hit
  have hhit := lruUpdate_hit_noevict s.memory_limit (getHash q cfg scope) (memTier s)
    hmem (le_of_eq hfull)
  have hA1 : (cget s now q cfg scope).2.memory_cache = s.memory_cache := by
    simp only [cget]
    rw [hmc, hmts]
    dsimp only
    rw [if_pos hfresh]
    show (lruUpdate s.memory_limit (getHash q cfg scope) (memTier s)).mc = _
    rw [hhit]
    rfl
  have hA2 : (cget s now q cfg scope).2.memory_timestamps = s.memory_timestamps := by
    simp only [cget]
    rw [hmc, hmts]
    dsimp only
    rw [if_pos hfresh]
    show (lruUpdate s.memory_limit (getHash q cfg scope) (memTier s)).mts = _
    rw [hhit]
    rfl
  have hA3 : (cget s now q cfg scope).2.memory_lru
      = s.memory_lru.erase (getHash q cfg scope) ++ [getHash q cfg scope] := by
    simp only [cget]
    rw [hmc, hmts]
    dsimp only
    rw [if_pos hfresh]
    show (lruUpdate s.memory_limit (getHash q cfg scope) (memTier s)).lru = _
    rw [hhit]
    rfl
  have hA4 : (cget s now q cfg scope).2.memory_limit = s.memory_limit := by
    simp only [cget]
    rw [hmc, hmts]
    dsimp only
    rw [if_pos hfresh]
    rfl
  -- decompose the erased list
  obtain ⟨o2, rest2, ho2⟩ : ∃ o2 rest2,
      s.memory_lru.erase (getHash q cfg scope) = o2 :: rest2 := by
    cases he : s.memory_lru.erase (getHash q cfg scope) with
    | nil => exact absurd he hother
    | cons o2 rest2 => exact ⟨o2, rest2, rfl⟩
  have ho2mem : o2 ∈ s.memory_lru := by
    have : o2 ∈ s.memory_lru.erase (getHash q cfg scope) := by
      rw [ho2]
      simp
    exact List.mem_of_mem_erase this
  have ho2ne : o2 ≠ getHash q cfg scope := by
    have : o2 ∈ s.memory_lru.erase (getHash q cfg scope) := by
      rw [ho2]
      simp
    exact (List.Nodup.mem_erase_iff hnd).mp this |>.1
  have ho2ne2 : o2 ≠ getHash q2 cfg scope := by
    intro he
    exact hnew (he ▸ ho2mem)
  -- the next insert evicts o2, the head of the erased list
  have hevict := memInsert_fresh_evict ((cget s now q cfg scope).2.memory_limit)
    (getHash q2 cfg scope) v2 now2 (memTier ((cget s now q cfg scope).2))
    o2 (rest2 ++ [getHash q cfg scope])
    (by
      show getHash q2 cfg scope ∉ (cget s now q cfg scope).2.memory_lru
      rw [hA3]
      intro hk
      rcases List.mem_append.mp hk with hk | hk
      · exact hnew (List.mem_of_mem_erase hk)
      · simp only [List.mem_singleton] at hk
        exact hne hk)
    (by
      show (cget s now q cfg scope).2.memory_lru = _
      rw [hA3, ho2]
      simp)
    (by
      show (cget s now q cfg scope).2.memory_lru.length = _
      rw [hA3, hA4, List.length_append, List.length_erase_of_mem hmem]
      have : 1 ≤ s.memory_lru.length := List.length_pos.mpr (List.ne_nil_of_mem hmem)
      simp only [List.length_cons, List.length_nil]
      omega)
    (by
      show (List.lookup o2 (aset (getHash q2 cfg scope) v2
        (cget s now q cfg scope).2.memory_cache)).isSome
      rw [lookup_aset_ne o2 _ v2 _ ho2ne2, hA1]
      exact hsync o2 ho2mem)
  have hcset : (cset ((cget s now q cfg scope).2) now2 q2 cfg v2 scope).memory_cache
      = aerase o2 (aset (getHash q2 cfg scope) v2
          (cget s now q cfg scope).2.memory_cache) := by
    show (memInsert ((cget s now q cfg scope).2.memory_limit) (getHash q2 cfg scope)
        v2 now2 (memTier ((cget s now q cfg scope).2))).mc = _
    rw [hevict]
    rfl
  rw [hcset, lookup_aerase_ne _ o2 _ (Ne.symm ho2ne)]
  rw [lookup_aset_ne _ _ v2 _ (Ne.symm hne), hA1, hmc]
  rfl

/-- C4 (amended): (i) with memory capacity N ≥ 1, inserting N+1
distinct keys into a fresh cache evicts exactly the least-recently-used
(first-inserted) key and leaves the memory tier holding exactly the later
N keys; (ii) every memory get hit moves the accessed key to the
most-recently-used end of the LRU list; (iii) a key accessed after its
insertion is not the victim of the next insertion's eviction PROVIDED at
least one other key is resident (in particular capacity ≥ 2) — with
capacity 1 the accessed key is still the next victim, because the newly
inserted key is always more recent. -/
theorem C4_lru_eviction_amended :
    (∀ (α : Type) (v : α) (t ttl : Int) (limit : Nat) (cfg : String)
      (qs : List String),
      (qs.map (fun q => getHash q cfg none)).Nodup →
      qs.length = limit + 1 →
      1 ≤ limit →
      ((qs.foldl (fun st q => cset st t q cfg v none)
          (initCache α ttl limit)).memory_lru
         = (qs.map (fun q => getHash q cfg none)).tail ∧
       (∀ k, (List.lookup k (qs.foldl (fun st q => cset st t q cfg v none)
          (initCache α ttl limit)).memory_cache).isSome
          ↔ k ∈ (qs.map (fun q => getHash q cfg none)).tail))) ∧
    (∀ (α : Type) (s : CacheState α) (now : Int) (q cfg : String)
      (scope : Option String) (v : α) (ts : Int),
      List.lookup (getHash q cfg scope) s.memory_cache = some v →
      List.lookup (getHash q cfg scope) s.memory_timestamps = some ts →
      now - ts < s.ttl →
      getHash q cfg scope ∈ s.memory_lru →
      s.memory_lru.length ≤ s.memory_limit →
      (cget s now q cfg scope).1 = some v ∧
      (cget s now q cfg scope).2.memory_lru
        = s.memory_lru.erase (getHash q cfg scope) ++ [getHash q cfg scope]) ∧
    (∀ (α : Type) (s : CacheState α) (now now2 : Int) (q q2 cfg : String)
      (scope : Option String) (v v2 : α) (ts : Int),
      (∀ k ∈ s.memory_lru, (List.lookup k s.memory_cache).isSome) →
      s.memory_lru.Nodup →
      List.lookup (getHash q cfg scope) s.memory_cache = some v →
      List.lookup (getHash q cfg scope) s.memory_timestamps = some ts →
      now - ts < s.ttl →
      getHash q cfg scope ∈ s.memory_lru →
      s.memory_lru.length = s.memory_limit →
      s.memory_lru.erase (getHash q cfg scope) ≠ [] →
      getHash q2 cfg scope ∉ s.memory_lru →
      getHash q2 cfg scope ≠ getHash q cfg scope →
      (List.lookup (getHash q cfg scope)
        (cset ((cget s now q cfg scope).2) now2 q2 cfg v2 scope).memory_cache).isSome) :=
  ⟨C4_partA, C4_partB, C4_partC⟩

/-- C4, counterexample to the claim as stated: with capacity N = 1, the
key "a" is inserted, then accessed (a memory hit, refreshing its
recency), yet the very next insertion of "b" evicts it — a key accessed
after its insertion IS the victim of the next eviction when no other key
is resident. -/
theorem C4_counterexample :
    ((cget (cset (initCache Nat 100 1) 0 "a" "c" 7 none) 1 "a" "c" none).1 = some 7) ∧
    (List.lookup (getHash "a" "c" none)
      (cset ((cget (cset (initCache Nat 100 1) 0 "a" "c" 7 none) 1 "a" "c" none).2)
        2 "b" "c" 8 none).memory_cache = none) := by
  refine ⟨?_, ?_⟩ <;> decide

/-- C4, witness: the amended theorem applied at capacity 2 — three
distinct keys leave the last two resident; a hit returns the value; and
the key "a", accessed after insertion with "b" also resident, survives
the eviction caused by inserting "d". -/
theorem C4_witness :
    ((["a", "b", "d"].foldl (fun st q => cset st 0 q "c" (0 : Nat) none)
        (initCache Nat 100 2)).memory_lru
      = (["a", "b", "d"].map (fun q => getHash q "c" none)).tail) ∧
    ((cget (cset (initCache Nat 100 5) 0 "a" "c" (7 : Nat) none) 1 "a" "c" none).1
      = some 7) ∧
    (List.lookup (getHash "a" "c" none)
      (cset ((cget (cset (cset (initCache Nat 100 2) 0 "a" "c" (5 : Nat) none)
          0 "b" "c" 6 none) 1 "a" "c" none).2) 2 "d" "c" 8 none).memory_cache).isSome := by
  refine ⟨?_, ?_, ?_⟩
  · exact (C4_lru_eviction_amended.1 Nat 0 0 100 2 "c" ["a", "b", "d"]
      (by decide) (by decide) (by decide)).1
  · exact (C4_lru_eviction_amended.2.1 Nat (cset (initCache Nat 100 5) 0 "a" "c" 7 none)
      1 "a" "c" none 7 0 (by decide) (by decide) (by decide) (by decide) (by decide)).1
  · exact C4_lru_eviction_amended.2.2 Nat
      (cset (cset (initCache Nat 100 2) 0 "a" "c" 5 none) 0 "b" "c" 6 none)
      1 2 "a" "d" "c" none 5 8 0
      (by decide) (by decide) (by decide) (by decide) (by decide) (by decide)
      (by decide) (by decide) (by decide) (by decide)

/-! ### C6: anchored template matching -/

theorem matchToks_sound :
    ∀ (ts : List Tok) (cs : List Char) (ps : List (List Char)),
      matchToks ts cs = some ps →
      ∃ body tail, cs = body ++ tail ∧ (tail = [] ∨ tail = ['\n']) ∧
        Decomp ts body ps := by
  intro ts
  induction ts with
  | nil =>
    intro cs ps h
    simp only [matchToks] at h
    split at h
    · rename_i hcs
      rw [Option.some_inj] at h
      subst h
      exact ⟨[], cs, by simp, hcs, Decomp.nil⟩
    · exact absurd h (by simp)
  | cons tk ts ih =>
    intro cs ps h
    cases tk with
    | lit c =>
      cases cs with
      | nil => simp [matchToks] at h
      | cons x cs2 =>
        simp only [matchToks] at h
        split at h
        · rename_i heq
          obtain ⟨body, tail, hcs, htail, hd⟩ := ih cs2 ps h
          refine ⟨x :: body, tail, ?_, htail, Decomp.lit heq hd⟩
          rw [List.cons_append, ← hcs]
        · exact absurd h (by simp)
    | grp k =>
      simp only [matchToks] at h
      rw [List.findSome?_eq_some_iff] at h
      obtain ⟨l1, pr, l2, hsplit, hf, hnone⟩ := h
      have hmem : pr ∈ splitsDesc (cs.takeWhile (classFn k))
          (cs.dropWhile (classFn k)) := by
        rw [hsplit]
        simp
      rw [splitsDesc, List.mem_map] at hmem
      obtain ⟨i, hi, hpr⟩ := hmem
      rw [List.mem_range] at hi
      subst hpr
      rw [Option.map_eq_some'] at hf
      obtain ⟨ps2, hm2, hps⟩ := hf
      obtain ⟨body2, tail, hcs2, htail, hd2⟩ := ih _ ps2 hm2
      subst hps
      have hpos : 0 < (cs.takeWhile (classFn k)).length := by omega
      refine ⟨(cs.takeWhile (classFn k)).take ((cs.takeWhile (classFn k)).length - i)
        ++ body2, tail, ?_, htail, ?_⟩
      · rw [List.append_assoc, ← hcs2]
        conv =>
          lhs
          rw [← List.takeWhile_append_dropWhile (p := classFn k) (l := cs)]
        rw [← List.append_assoc]
        rw [List.take_append_drop]
      · refine Decomp.grp ?_ ?_ hd2
        · rw [ne_eq, List.take_eq_nil_iff]
          push_neg
          constructor
          · omega
          · intro hnil
            rw [hnil] at hpos
            simp at hpos
        · intro a ha
          have ha2 : a ∈ cs.takeWhile (classFn k) := List.mem_of_mem_take ha
          exact List.mem_takeWhile_imp ha2

theorem templateMatches_sound (p q : String) (ps : List String)
    (h : templateMatches p q = (true, ps)) :
    ∃ gs body tail, ps = gs.map (fun g => String.mk g) ∧
      q.toList = body ++ tail ∧ (tail = [] ∨ tail = ['\n']) ∧
      Decomp (tokenizePattern p.toList) body gs := by
  unfold templateMatches at h
  cases hm : matchToks (tokenizePattern p.toList) q.toList with
  | none =>
    rw [hm] at h
    simp at h
  | some gs =>
    rw [hm] at h
    simp only [Prod.mk.injEq, true_and] at h
    obtain ⟨body, tail, hq, htail, hd⟩ := matchToks_sound _ _ _ hm
    exact ⟨gs, body, tail, h.symm, hq, htail, hd⟩

/-- C6 (amended): QueryTemplate.matches succeeds only when the compiled
pattern consumes the whole question — except that the Python end anchor $
also accepts a single trailing newline, so a question extended by one
final newline still matches.  On success the captured parameters are the
group contents in the order the placeholders appeared, literals compare
case-insensitively, and the placeholder classes are as specified
({table}/{field} word runs, {value} no comma/period/whitespace, {number}
digits).  The concrete conjuncts check the spec's examples: the anchored
match with its capture, case-insensitivity, and rejection of a strict
prefix and of a longer extension. -/
theorem C6_template_matching_amended :
    (∀ (p q : String) (ps : List String),
      templateMatches p q = (true, ps) →
      ∃ gs body tail, ps = gs.map (fun g => String.mk g) ∧
        q.toList = body ++ tail ∧ (tail = [] ∨ tail = ['\n']) ∧
        Decomp (tokenizePattern p.toList) body gs) ∧
    templateMatches "how many {table} hay" "how many users hay" = (true, ["users"]) ∧
    templateMatches "how many {table} hay" "How Many USERS Hay" = (true, ["USERS"]) ∧
    templateMatches "how many {table} hay" "how many users" = (false, []) ∧
    templateMatches "how many {table} hay" "how many users hay now" = (false, []) := by
  refine ⟨templateMatches_sound, ?_, ?_, ?_, ?_⟩ <;> decide

/-- C6, counterexample to the claim as stated: the question
"how many users hay" followed by a newline is a strict extension of the
pattern's shape, yet matches (capturing "users"), because the $ anchor of
a Python pattern also matches just before one final newline; so matching
is not strictly whole-question anchored. -/
theorem C6_counterexample :
    templateMatches "how many {table} hay" "how many users hay\n"
      = (true, ["users"]) := by
  decide

/-- C6, witness: the amended soundness statement applied to the spec's
example match. -/
theorem C6_witness :
    ∃ gs body tail, (["users"] : List String) = gs.map (fun g => String.mk g) ∧
      ("how many users hay").toList = body ++ tail ∧ (tail = [] ∨ tail = ['\n']) ∧
      Decomp (tokenizePattern ("how many {table} hay").toList) body gs :=
  C6_template_matching_amended.1 "how many {table} hay" "how many users hay" ["users"]
    (by decide)
